import Mathlib

/-!
Verification of the batch build dispatcher and result ledger of
src/backends/mod.rs, and of the LFC backend adapter of src/backends/lfc.rs,
as a shallow embedding in Lean.

External effects (hash-map iteration order, process spawning, filesystem
removal) are made explicit parameters; the pure control flow follows the
Rust source line by line.
-/

namespace Weaver

/-- Embedding of the build-system kinds of crate args BuildSystem: exactly the
variants matched in execute_command in src/backends/mod.rs lines 25-29. -/
inductive BuildSystem
  | LFC
  | CMake
  | Cargo
deriving DecidableEq, Repr

/-- Modelled from the spec: crate package App is not under src; per spec section 3
the core reads only an application's name (the stable sort and report key) and its
build-system kind selector. -/
structure App where
  name : String
  build_system : BuildSystem
deriving DecidableEq, Repr

/-- Modelled from the spec: crate util errors BuildResult is not under src; per
spec section 3 an Outcome is either success or a failure carrying a descriptive
error message (a Result of unit and an error rendered as a string). -/
inductive BuildResult
  | ok
  | err (msg : String)
deriving DecidableEq, Repr

/-- Embedding of BuildProfile, src/backends/mod.rs lines 35-41. -/
inductive BuildProfile
  | Release
  | Debug
deriving DecidableEq, Repr

/-- Embedding of BuildCommandOptions, src/backends/mod.rs lines 43-51; the PathBuf
of the LFC executable is modelled as its string. -/
structure BuildCommandOptions where
  profile : BuildProfile
  compile_target_code : Bool
  lfc_exec_path : String
deriving DecidableEq, Repr

/-- Embedding of CommandSpec, src/backends/mod.rs lines 53-62. -/
inductive CommandSpec
  | Build (options : BuildCommandOptions)
  | Update
  | Clean
deriving DecidableEq, Repr

/-- Embedding of BatchLingoCommand, src/backends/mod.rs lines 64-70; the borrowed
App references become values. -/
structure BatchLingoCommand where
  apps : List App
  task : CommandSpec

/-- Embedding of BatchLingoCommand with_apps, src/backends/mod.rs lines 73-78:
re-scope the command to a new app list, cloning the task. -/
def BatchLingoCommand.with_apps (c : BatchLingoCommand) (apps : List App) :
    BatchLingoCommand :=
  ⟨apps, c.task⟩

/-- Embedding of BatchBuildResults, src/backends/mod.rs lines 91-94: the result
ledger, an ordered list of per-app outcomes. -/
structure BatchBuildResults where
  results : List (App × BuildResult)
deriving DecidableEq, Repr

/-- Embedding of BatchBuildResults new, src/backends/mod.rs lines 97-101. -/
def BatchBuildResults.new : BatchBuildResults := ⟨[]⟩

/-- Embedding of BatchBuildResults for_apps, src/backends/mod.rs lines 103-107:
pre-seed the ledger with one success placeholder per app. -/
def BatchBuildResults.for_apps (apps : List App) : BatchBuildResults :=
  ⟨apps.map (fun a => (a, BuildResult.ok))⟩

/-- The sort key comparison of BatchBuildResults append: Rust sort_by_key on the
app name, a stable sort under the lexicographic string order. -/
def nameLe (p q : App × BuildResult) : Bool := decide (p.1.name ≤ q.1.name)

/-- Embedding of BatchBuildResults append, src/backends/mod.rs lines 124-127:
concatenate the other ledger's entries onto this one, then re-sort (stably) by
app name. -/
def BatchBuildResults.append (s other : BatchBuildResults) : BatchBuildResults :=
  ⟨(s.results ++ other.results).mergeSort nameLe⟩

/-- Embedding of BatchBuildResults record_result, src/backends/mod.rs lines 129-131. -/
def BatchBuildResults.record_result (s : BatchBuildResults) (app : App)
    (result : BuildResult) : BatchBuildResults :=
  ⟨s.results ++ [(app, result)]⟩

/-- Embedding of BatchBuildResults map, src/backends/mod.rs lines 139-151: apply f
to every entry currently recording success, converting its result into a
BuildResult; entries recording failure are untouched. The Rust Into bound on the
return type R becomes the explicit conversion into. -/
def BatchBuildResults.map {R : Type} (s : BatchBuildResults) (into : R → BuildResult)
    (f : App → R) : BatchBuildResults :=
  ⟨s.results.map (fun p =>
      match p.2 with
      | BuildResult.ok => (p.1, into (f p.1))
      | _ => p)⟩

/-- Embedding of BatchBuildResults par_map, src/backends/mod.rs lines 155-168: same
per-entry body as map, with f returning a BuildResult directly, each entry updated
by its own parallel task. -/
def BatchBuildResults.par_map (s : BatchBuildResults) (f : App → BuildResult) :
    BatchBuildResults :=
  ⟨s.results.map (fun p =>
      match p.2 with
      | BuildResult.ok => (p.1, f p.1)
      | _ => p)⟩

/-- The per-entry closure of par_map (src/backends/mod.rs lines 161-166), named so
that the scheduled model below can reuse it. -/
def update_entry (f : App → BuildResult) (p : App × BuildResult) :
    App × BuildResult :=
  match p.2 with
  | BuildResult.ok => (p.1, f p.1)
  | _ => p

/-- One task of par_iter_mut for_each: update the ledger entry at index i in place.
Each task reads and writes only its own entry. -/
def apply_at (f : App → BuildResult) (l : List (App × BuildResult)) (i : Nat) :
    List (App × BuildResult) :=
  match l[i]? with
  | some p => l.set i (update_entry f p)
  | none => l

/-- Scheduled model of par_map: rayon runs the per-entry closure exactly once per
index, in an unspecified interleaving; order lists the entry indices in the order
the tasks commit their writes. Any order that visits each index exactly once is a
legal schedule. -/
def par_map_sched (s : BatchBuildResults) (f : App → BuildResult)
    (order : List Nat) : BatchBuildResults :=
  ⟨order.foldl (fun l i => apply_at f l i) s.results⟩

/-- The match on the build system inside execute_command, src/backends/mod.rs lines
25-29. The LFC and CMake batch backends are external to the dispatcher (their
implementations are not part of the dispatch logic) and are passed as parameters;
the Cargo arm is a todo panic, modelled as the fatal outcome none: the whole
invocation aborts and returns no ledger. -/
def run_backend (lfcExec cmakeExec : BatchLingoCommand → BatchBuildResults)
    (bs : BuildSystem) (cmd : BatchLingoCommand) : Option BatchBuildResults :=
  match bs with
  | BuildSystem.LFC => some (lfcExec cmd)
  | BuildSystem.CMake => some (cmakeExec cmd)
  | BuildSystem.Cargo => none

/-- The partition of apps handled by build system bs: execute_command groups apps
into the by_build_system hash map keyed by app build_system, pushing in input
order, so each group is the order-preserving filter by kind
(src/backends/mod.rs lines 14-20). -/
def partitionOf (apps : List App) (bs : BuildSystem) : List App :=
  apps.filter (fun a => a.build_system == bs)

/-- All build-system kinds, in one fixed enumeration order. -/
def all_kinds : List BuildSystem := [BuildSystem.LFC, BuildSystem.CMake, BuildSystem.Cargo]

/-- The key set of the by_build_system hash map: the kinds whose partition is
non-empty. The hash map's iteration order is unspecified in Rust; this fixes one
enumeration, and the claims proved below are insensitive to it. -/
def kindsPresent (apps : List App) : List BuildSystem :=
  all_kinds.filter (fun bs => apps.any (fun a => a.build_system == bs))

/-- The dispatch loop of execute_command, src/backends/mod.rs lines 23-31: for each
kind present, re-scope the command to that kind's partition, run its backend, and
absorb the sub-result; a missing backend (the Cargo todo panic) aborts the whole
fold with none. -/
def dispatch_loop (lfcExec cmakeExec : BatchLingoCommand → BatchBuildResults)
    (command : BatchLingoCommand) (acc : BatchBuildResults) :
    List BuildSystem → Option BatchBuildResults
  | [] => some acc
  | bs :: rest =>
    match run_backend lfcExec cmakeExec bs (command.with_apps (partitionOf command.apps bs)) with
    | some sub_res => dispatch_loop lfcExec cmakeExec command (acc.append sub_res) rest
    | none => none

/-- Embedding of execute_command, src/backends/mod.rs lines 12-33. -/
def execute_command (lfcExec cmakeExec : BatchLingoCommand → BatchBuildResults)
    (command : BatchLingoCommand) : Option BatchBuildResults :=
  dispatch_loop lfcExec cmakeExec command BatchBuildResults.new (kindsPresent command.apps)

/-- The apps recorded in a ledger, in entry order. -/
def resultApps (s : BatchBuildResults) : List App := s.results.map Prod.fst

/-- Embedding of the inner build closure of LFC build, src/backends/lfc.rs lines
24-31: it returns whether run_and_capture of the lfc process invocation succeeded.
The process effect is abstracted into the boolean run_and_capture_ok. -/
def LFC.build_lambda (run_and_capture_ok : Bool) : Bool := run_and_capture_ok

/-- Embedding of LFC build, src/backends/lfc.rs lines 21-36: it calls the build
closure, discards the closure's result, and returns true. -/
def LFC.build (run_and_capture_ok : Bool) : Bool :=
  let _ := LFC.build_lambda run_and_capture_ok
  true

/-- Embedding of LFC clean, src/backends/lfc.rs lines 42-51: the conjunction of
is_ok of the six directory removals. The filesystem effect is abstracted into
remove_ok, which tells for each path whether fs remove_dir_all returned Ok; it is
false for a directory that does not exist. -/
def LFC.clean (remove_ok : String → Bool) : Bool :=
  remove_ok "./bin" && remove_ok "./include" && remove_ok "./src-gen" &&
    remove_ok "./lib64" && remove_ok "./share" && remove_ok "./build"

/-- The six artifact directories removed by LFC clean. -/
def artifact_dirs : List String :=
  ["./bin", "./include", "./src-gen", "./lib64", "./share", "./build"]

/-! Helper lemmas shared by several claims. -/

theorem nameLe_trans (p q r : App × BuildResult) :
    nameLe p q → nameLe q r → nameLe p r := by
  simp only [nameLe, decide_eq_true_eq]
  exact le_trans

theorem nameLe_total (p q : App × BuildResult) : nameLe p q || nameLe q p := by
  simp only [nameLe, Bool.or_eq_true, decide_eq_true_eq]
  exact le_total _ _

theorem resultApps_map {R : Type} (s : BatchBuildResults) (into : R → BuildResult)
    (f : App → R) : resultApps (s.map into f) = resultApps s := by
  unfold resultApps BatchBuildResults.map
  simp only [List.map_map]
  apply List.map_congr_left
  intro p _
  obtain ⟨a, r⟩ := p
  cases r <;> rfl

theorem resultApps_par_map (s : BatchBuildResults) (f : App → BuildResult) :
    resultApps (s.par_map f) = resultApps s := by
  unfold resultApps BatchBuildResults.par_map
  simp only [List.map_map]
  apply List.map_congr_left
  intro p _
  obtain ⟨a, r⟩ := p
  cases r <;> rfl

/-! Claim theorems. -/

/-- C7: for every ledger in which application A's entry (at position i) records a
success Outcome, after map f the ledger's entry at i records A with Outcome
into (f A), the transform's result converted into a BuildResult. -/
theorem map_replaces_success_with_f {R : Type} (s : BatchBuildResults)
    (into : R → BuildResult) (f : App → R) (i : Nat) (A : App)
    (h : s.results[i]? = some (A, BuildResult.ok)) :
    (s.map into f).results[i]? = some (A, into (f A)) := by
  simp [BatchBuildResults.map, h]

/-- Witness for C7 at a concrete one-entry ledger. -/
theorem map_replaces_success_with_f_witness :
    ((BatchBuildResults.for_apps [⟨"a", BuildSystem.LFC⟩]).map (fun r => r)
        (fun _ => BuildResult.err "boom")).results[0]? =
      some (⟨"a", BuildSystem.LFC⟩, BuildResult.err "boom") :=
  map_replaces_success_with_f (BatchBuildResults.for_apps [⟨"a", BuildSystem.LFC⟩])
    (fun r => r) (fun _ => BuildResult.err "boom") 0 ⟨"a", BuildSystem.LFC⟩ rfl

/-- C2: for every ledger in which the entry at position i records application A
with a failure Outcome, map and par_map leave that entry unchanged, and the
transform is never invoked on A: the stage's result depends only on the
transform's values at apps whose entry currently records success. -/
theorem map_par_map_skip_failed {R : Type} (s : BatchBuildResults)
    (into : R → BuildResult) (f g : App → R) (f2 g2 : App → BuildResult)
    (A : App) (m : String) (i : Nat)
    (hfg : ∀ a, (a, BuildResult.ok) ∈ s.results → f a = g a)
    (hfg2 : ∀ a, (a, BuildResult.ok) ∈ s.results → f2 a = g2 a)
    (hA : s.results[i]? = some (A, BuildResult.err m)) :
    (s.map into f).results[i]? = some (A, BuildResult.err m) ∧
    (s.par_map f2).results[i]? = some (A, BuildResult.err m) ∧
    s.map into f = s.map into g ∧
    s.par_map f2 = s.par_map g2 := by
  refine ⟨?_, ?_, ?_, ?_⟩
  · simp [BatchBuildResults.map, hA]
  · simp [BatchBuildResults.par_map, hA]
  · apply congrArg BatchBuildResults.mk
    apply List.map_congr_left
    intro p hp
    obtain ⟨a, r⟩ := p
    cases r with
    | ok => simpa using congrArg into (hfg a hp)
    | err m2 => rfl
  · apply congrArg BatchBuildResults.mk
    apply List.map_congr_left
    intro p hp
    obtain ⟨a, r⟩ := p
    cases r with
    | ok => simpa using hfg2 a hp
    | err m2 => rfl

/-- Witness for C2 at a concrete one-entry failed ledger. -/
theorem map_par_map_skip_failed_witness :
    (((⟨[(⟨"b", BuildSystem.CMake⟩, BuildResult.err "boom")]⟩ : BatchBuildResults).map
        (fun r => r) (fun _ => BuildResult.ok)).results[0]? =
      some (⟨"b", BuildSystem.CMake⟩, BuildResult.err "boom")) ∧
    (((⟨[(⟨"b", BuildSystem.CMake⟩, BuildResult.err "boom")]⟩ : BatchBuildResults).par_map
        (fun _ => BuildResult.ok)).results[0]? =
      some (⟨"b", BuildSystem.CMake⟩, BuildResult.err "boom")) ∧
    ((⟨[(⟨"b", BuildSystem.CMake⟩, BuildResult.err "boom")]⟩ : BatchBuildResults).map
        (fun r => r) (fun _ => BuildResult.ok) =
      (⟨[(⟨"b", BuildSystem.CMake⟩, BuildResult.err "boom")]⟩ : BatchBuildResults).map
        (fun r => r) (fun _ => BuildResult.ok)) ∧
    ((⟨[(⟨"b", BuildSystem.CMake⟩, BuildResult.err "boom")]⟩ : BatchBuildResults).par_map
        (fun _ => BuildResult.ok) =
      (⟨[(⟨"b", BuildSystem.CMake⟩, BuildResult.err "boom")]⟩ : BatchBuildResults).par_map
        (fun _ => BuildResult.ok)) :=
  map_par_map_skip_failed (⟨[(⟨"b", BuildSystem.CMake⟩, BuildResult.err "boom")]⟩)
    (fun r => r) (fun _ => BuildResult.ok) (fun _ => BuildResult.ok)
    (fun _ => BuildResult.ok) (fun _ => BuildResult.ok)
    ⟨"b", BuildSystem.CMake⟩ "boom" 0 (fun _ _ => rfl) (fun _ _ => rfl) rfl

/-- C9: for every ledger and every transform, map and par_map return a ledger with
exactly the same apps in exactly the same order and length as the input (no entry
added, removed or reordered), and any failure entry keeps its position and Outcome
unchanged, so only the Outcome of previously-successful entries may change. -/
theorem map_par_map_preserve_apps {R : Type} (s : BatchBuildResults)
    (into : R → BuildResult) (f : App → R) (f2 : App → BuildResult) :
    resultApps (s.map into f) = resultApps s ∧
    resultApps (s.par_map f2) = resultApps s ∧
    (s.map into f).results.length = s.results.length ∧
    (s.par_map f2).results.length = s.results.length ∧
    ∀ (i : Nat) (a : App) (m : String), s.results[i]? = some (a, BuildResult.err m) →
      (s.map into f).results[i]? = some (a, BuildResult.err m) ∧
      (s.par_map f2).results[i]? = some (a, BuildResult.err m) := by
  refine ⟨resultApps_map s into f, resultApps_par_map s f2, ?_, ?_, ?_⟩
  · simp [BatchBuildResults.map]
  · simp [BatchBuildResults.par_map]
  · intro i a m h
    constructor
    · simp [BatchBuildResults.map, h]
    · simp [BatchBuildResults.par_map, h]

/-- Witness for C9 at a concrete two-entry ledger, exercising both the
unconditional preservation clauses and the failure-entry clause at index 1. -/
theorem map_par_map_preserve_apps_witness :
    resultApps ((⟨[(⟨"a", BuildSystem.LFC⟩, BuildResult.ok),
        (⟨"b", BuildSystem.CMake⟩, BuildResult.err "e")]⟩ : BatchBuildResults).map
        (fun r => r) (fun _ => BuildResult.err "x")) =
      resultApps (⟨[(⟨"a", BuildSystem.LFC⟩, BuildResult.ok),
        (⟨"b", BuildSystem.CMake⟩, BuildResult.err "e")]⟩ : BatchBuildResults) ∧
    resultApps ((⟨[(⟨"a", BuildSystem.LFC⟩, BuildResult.ok),
        (⟨"b", BuildSystem.CMake⟩, BuildResult.err "e")]⟩ : BatchBuildResults).par_map
        (fun _ => BuildResult.err "x")) =
      resultApps (⟨[(⟨"a", BuildSystem.LFC⟩, BuildResult.ok),
        (⟨"b", BuildSystem.CMake⟩, BuildResult.err "e")]⟩ : BatchBuildResults) ∧
    ((⟨[(⟨"a", BuildSystem.LFC⟩, BuildResult.ok),
        (⟨"b", BuildSystem.CMake⟩, BuildResult.err "e")]⟩ : BatchBuildResults).map
        (fun r => r) (fun _ => BuildResult.err "x")).results.length =
      ((⟨[(⟨"a", BuildSystem.LFC⟩, BuildResult.ok),
        (⟨"b", BuildSystem.CMake⟩, BuildResult.err "e")]⟩ : BatchBuildResults)).results.length ∧
    ((⟨[(⟨"a", BuildSystem.LFC⟩, BuildResult.ok),
        (⟨"b", BuildSystem.CMake⟩, BuildResult.err "e")]⟩ : BatchBuildResults).par_map
        (fun _ => BuildResult.err "x")).results.length =
      ((⟨[(⟨"a", BuildSystem.LFC⟩, BuildResult.ok),
        (⟨"b", BuildSystem.CMake⟩, BuildResult.err "e")]⟩ : BatchBuildResults)).results.length ∧
    (((⟨[(⟨"a", BuildSystem.LFC⟩, BuildResult.ok),
        (⟨"b", BuildSystem.CMake⟩, BuildResult.err "e")]⟩ : BatchBuildResults).map
        (fun r => r) (fun _ => BuildResult.err "x")).results[1]? =
      some (⟨"b", BuildSystem.CMake⟩, BuildResult.err "e") ∧
    ((⟨[(⟨"a", BuildSystem.LFC⟩, BuildResult.ok),
        (⟨"b", BuildSystem.CMake⟩, BuildResult.err "e")]⟩ : BatchBuildResults).par_map
        (fun _ => BuildResult.err "x")).results[1]? =
      some (⟨"b", BuildSystem.CMake⟩, BuildResult.err "e")) :=
  ⟨(map_par_map_preserve_apps
      (⟨[(⟨"a", BuildSystem.LFC⟩, BuildResult.ok),
          (⟨"b", BuildSystem.CMake⟩, BuildResult.err "e")]⟩)
      (fun r => r) (fun _ => BuildResult.err "x") (fun _ => BuildResult.err "x")).1,
    (map_par_map_preserve_apps
      (⟨[(⟨"a", BuildSystem.LFC⟩, BuildResult.ok),
          (⟨"b", BuildSystem.CMake⟩, BuildResult.err "e")]⟩)
      (fun r => r) (fun _ => BuildResult.err "x") (fun _ => BuildResult.err "x")).2.1,
    (map_par_map_preserve_apps
      (⟨[(⟨"a", BuildSystem.LFC⟩, BuildResult.ok),
          (⟨"b", BuildSystem.CMake⟩, BuildResult.err "e")]⟩)
      (fun r => r) (fun _ => BuildResult.err "x") (fun _ => BuildResult.err "x")).2.2.1,
    (map_par_map_preserve_apps
      (⟨[(⟨"a", BuildSystem.LFC⟩, BuildResult.ok),
          (⟨"b", BuildSystem.CMake⟩, BuildResult.err "e")]⟩)
      (fun r => r) (fun _ => BuildResult.err "x") (fun _ => BuildResult.err "x")).2.2.2.1,
    (map_par_map_preserve_apps
      (⟨[(⟨"a", BuildSystem.LFC⟩, BuildResult.ok),
          (⟨"b", BuildSystem.CMake⟩, BuildResult.err "e")]⟩)
      (fun r => r) (fun _ => BuildResult.err "x") (fun _ => BuildResult.err "x")).2.2.2.2
      1 ⟨"b", BuildSystem.CMake⟩ "e" rfl⟩

/-- C6 evidence: LFC build reports success (true) even when the external lfc tool
invocation failed (run_and_capture returned an error), because the result of the
build closure is discarded and build unconditionally returns true. -/
theorem build_reports_success_despite_tool_failure : LFC.build false = true := rfl

/-- C5 counterexample: when no build artifacts exist, every directory removal
fails, and LFC clean returns failure rather than the success the claim promises. -/
theorem clean_fails_without_artifacts : LFC.clean (fun _ => false) = false := rfl

/-- C5 amended: LFC clean reports success exactly when all six artifact-directory
removals succeed; in particular, with no prior build (no artifact directory
exists, every removal fails) it reports failure, so clean is not best-effort. -/
theorem clean_success_iff_all_removals (remove_ok : String → Bool) :
    LFC.clean remove_ok = true ↔ ∀ d ∈ artifact_dirs, remove_ok d = true := by
  simp only [LFC.clean, artifact_dirs, Bool.and_eq_true, List.mem_cons,
    List.mem_singleton, forall_eq_or_imp, forall_eq]
  tauto

/-- C3: for ledgers with disjoint application sets, append yields a ledger whose
entries are exactly the union of the two ledgers' entries (a permutation of their
concatenation, so nothing is added, lost or duplicated beyond the inputs), sorted
by application name. -/
theorem append_disjoint_union (l1 l2 : BatchBuildResults)
    (hdisj : ∀ a r1 r2, (a, r1) ∈ l1.results → (a, r2) ∈ l2.results → False) :
    (l1.append l2).results.Perm (l1.results ++ l2.results) ∧
    (l1.append l2).results.Pairwise (fun p q => nameLe p q = true) := by
  constructor
  · exact List.mergeSort_perm _ _
  · exact List.sorted_mergeSort nameLe_trans nameLe_total _

/-- Witness for C3 on two concrete disjoint one-entry ledgers. -/
theorem append_disjoint_union_witness :
    ((⟨[(⟨"b", BuildSystem.LFC⟩, BuildResult.ok)]⟩ : BatchBuildResults).append
        ⟨[(⟨"a", BuildSystem.CMake⟩, BuildResult.err "e")]⟩).results.Perm
      ([(⟨"b", BuildSystem.LFC⟩, BuildResult.ok)] ++
        [(⟨"a", BuildSystem.CMake⟩, BuildResult.err "e")]) ∧
    ((⟨[(⟨"b", BuildSystem.LFC⟩, BuildResult.ok)]⟩ : BatchBuildResults).append
        ⟨[(⟨"a", BuildSystem.CMake⟩, BuildResult.err "e")]⟩).results.Pairwise
      (fun p q => nameLe p q = true) :=
  append_disjoint_union ⟨[(⟨"b", BuildSystem.LFC⟩, BuildResult.ok)]⟩
    ⟨[(⟨"a", BuildSystem.CMake⟩, BuildResult.err "e")]⟩
    (by
      intro x r1 r2 h1 h2
      simp only [List.mem_singleton, Prod.mk.injEq] at h1 h2
      rw [h1.1] at h2
      simp at h2)

/-- Any list of kinds that contains Cargo makes the dispatch loop abort with none,
whatever the accumulated ledger: the Cargo arm of the backend match is a panic. -/
theorem dispatch_loop_cargo_none (lfcExec cmakeExec : BatchLingoCommand → BatchBuildResults)
    (cmd : BatchLingoCommand) (kl : List BuildSystem)
    (h : BuildSystem.Cargo ∈ kl) :
    ∀ acc, dispatch_loop lfcExec cmakeExec cmd acc kl = none := by
  induction kl with
  | nil => cases h
  | cons bs rest ih =>
    intro acc
    cases bs with
    | LFC =>
      simp only [List.mem_cons] at h
      rcases h with h | h
      · exact absurd h (by decide)
      · exact ih h _
    | CMake =>
      simp only [List.mem_cons] at h
      rcases h with h | h
      · exact absurd h (by decide)
      · exact ih h _
    | Cargo => rfl

/-- C4: a batch command whose application set contains an application of the Cargo
(package-manager) kind terminates the whole invocation fatally: execute_command
returns no ledger (none), whatever the implemented backends would have produced
for applications of the other kinds. -/
theorem cargo_app_aborts_batch (lfcExec cmakeExec : BatchLingoCommand → BatchBuildResults)
    (cmd : BatchLingoCommand) (a : App) (ha : a ∈ cmd.apps)
    (hk : a.build_system = BuildSystem.Cargo) :
    execute_command lfcExec cmakeExec cmd = none := by
  apply dispatch_loop_cargo_none
  unfold kindsPresent
  rw [List.mem_filter]
  constructor
  · decide
  · rw [List.any_eq_true]
    exact ⟨a, ha, by simp [hk]⟩

/-- Witness for C4: a mixed batch with one LFC app and one Cargo app, dispatched
with backends that would succeed on everything, still yields no ledger. -/
theorem cargo_app_aborts_batch_witness :
    execute_command (fun c => BatchBuildResults.for_apps c.apps)
      (fun c => BatchBuildResults.for_apps c.apps)
      ⟨[⟨"a", BuildSystem.LFC⟩, ⟨"c", BuildSystem.Cargo⟩], CommandSpec.Update⟩ = none :=
  cargo_app_aborts_batch (fun c => BatchBuildResults.for_apps c.apps)
    (fun c => BatchBuildResults.for_apps c.apps)
    ⟨[⟨"a", BuildSystem.LFC⟩, ⟨"c", BuildSystem.Cargo⟩], CommandSpec.Update⟩
    ⟨"c", BuildSystem.Cargo⟩ (by simp) rfl

/-- C10: a batch command with an empty application list invokes no backend and
returns the empty ledger (the result is the same for every pair of backend
implementations and contains no entry); and for_apps pre-seeds a ledger with
exactly one success placeholder per application, in the input order. -/
theorem empty_batch_no_backend_and_for_apps_seed (cmd : BatchLingoCommand)
    (h : cmd.apps = []) (apps : List App) :
    (∀ lfcExec cmakeExec,
      execute_command lfcExec cmakeExec cmd = some BatchBuildResults.new) ∧
    BatchBuildResults.new.results = [] ∧
    resultApps (BatchBuildResults.for_apps apps) = apps ∧
    ∀ p ∈ (BatchBuildResults.for_apps apps).results, p.2 = BuildResult.ok := by
  refine ⟨?_, rfl, ?_, ?_⟩
  · intro lfcExec cmakeExec
    unfold execute_command
    rw [h]
    rfl
  · unfold resultApps BatchBuildResults.for_apps
    simp only [List.map_map]
    exact List.map_id apps
  · intro p hp
    unfold BatchBuildResults.for_apps at hp
    simp only [List.mem_map] at hp
    obtain ⟨a, _, rfl⟩ := hp
    rfl

/-- Witness for C10 at a concrete empty command and a concrete app set. -/
theorem empty_batch_no_backend_and_for_apps_seed_witness :
    (∀ lfcExec cmakeExec,
      execute_command lfcExec cmakeExec ⟨[], CommandSpec.Update⟩ =
        some BatchBuildResults.new) ∧
    BatchBuildResults.new.results = [] ∧
    resultApps (BatchBuildResults.for_apps [⟨"a", BuildSystem.LFC⟩]) =
      [⟨"a", BuildSystem.LFC⟩] ∧
    ∀ p ∈ (BatchBuildResults.for_apps [⟨"a", BuildSystem.LFC⟩]).results,
      p.2 = BuildResult.ok :=
  empty_batch_no_backend_and_for_apps_seed ⟨[], CommandSpec.Update⟩ rfl
    [⟨"a", BuildSystem.LFC⟩]

/-- One in-place parallel task touches only its own index: reading index j of the
ledger after the task for index i committed gives the updated entry at i and an
unchanged entry everywhere else. -/
theorem apply_at_getElem? (f : App → BuildResult) (l : List (App × BuildResult))
    (i j : Nat) :
    (apply_at f l i)[j]? =
      if i = j then (l[j]?).map (update_entry f) else l[j]? := by
  unfold apply_at
  cases hi : l[i]? with
  | none =>
    by_cases h : i = j
    · subst h
      rw [if_pos rfl, hi]
      rfl
    · rw [if_neg h]
  | some p =>
    rw [List.getElem?_set]
    have hlen : i < l.length := by
      by_contra hcon
      rw [List.getElem?_eq_none (by omega)] at hi
      cases hi
    by_cases h : i = j
    · subst h
      rw [if_pos rfl, if_pos rfl, if_pos hlen, hi]
      rfl
    · rw [if_neg h, if_neg h]

/-- Running the per-entry tasks in any duplicate-free order updates exactly the
visited indices, each once, independently of the interleaving. -/
theorem foldl_apply_at_getElem? (f : App → BuildResult) :
    ∀ (order : List Nat) (l : List (App × BuildResult)), order.Nodup →
      ∀ j, (order.foldl (fun acc i => apply_at f acc i) l)[j]? =
        if j ∈ order then (l[j]?).map (update_entry f) else l[j]? := by
  intro order
  induction order with
  | nil =>
    intro l _ j
    simp
  | cons o rest ih =>
    intro l hnd j
    obtain ⟨ho, hnd2⟩ := List.nodup_cons.mp hnd
    rw [List.foldl_cons]
    rw [ih (apply_at f l o) hnd2 j]
    rw [apply_at_getElem?]
    by_cases hjr : j ∈ rest
    · rw [if_pos hjr, if_pos (List.mem_cons_of_mem o hjr)]
      have hne : ¬o = j := fun h => ho (h ▸ hjr)
      rw [if_neg hne]
    · rw [if_neg hjr]
      by_cases hjo : o = j
      · subst hjo
        rw [if_pos rfl, if_pos (List.mem_cons_self o rest)]
      · rw [if_neg hjo]
        have hnotin : j ∉ o :: rest := by
          rw [List.mem_cons]
          push_neg
          exact ⟨fun h => hjo h.symm, hjr⟩
        rw [if_neg hnotin]

/-- C1: every legal parallel schedule of par_map (any order in which the
per-entry tasks commit, each entry index exactly once) produces exactly the
ledger the sequential map produces on the same input: same apps, same
success/failure Outcome per app including the failure message. -/
theorem par_map_outcome_equiv_map (s : BatchBuildResults) (f : App → BuildResult)
    (order : List Nat) (h : order.Perm (List.range s.results.length)) :
    par_map_sched s f order = s.map (fun r => r) f ∧
    s.par_map f = s.map (fun r => r) f := by
  refine ⟨?_, rfl⟩
  have hnd : order.Nodup := h.nodup_iff.mpr (List.nodup_range _)
  have hmem : ∀ j, j ∈ order ↔ j < s.results.length := by
    intro j
    rw [h.mem_iff, List.mem_range]
  apply congrArg BatchBuildResults.mk
  apply List.ext_getElem?
  intro j
  rw [foldl_apply_at_getElem? f order s.results hnd j, List.getElem?_map]
  by_cases hj : j < s.results.length
  · rw [if_pos ((hmem j).mpr hj)]
    rfl
  · rw [if_neg (fun hc => hj ((hmem j).mp hc))]
    rw [List.getElem?_eq_none (by omega)]
    rfl

/-- Witness for C1: a two-entry ledger run under the reversed schedule. -/
theorem par_map_outcome_equiv_map_witness :
    par_map_sched
        ⟨[(⟨"a", BuildSystem.LFC⟩, BuildResult.ok),
          (⟨"b", BuildSystem.CMake⟩, BuildResult.err "e")]⟩
        (fun _ => BuildResult.err "x") [1, 0] =
      (⟨[(⟨"a", BuildSystem.LFC⟩, BuildResult.ok),
          (⟨"b", BuildSystem.CMake⟩, BuildResult.err "e")]⟩ : BatchBuildResults).map
        (fun r => r) (fun _ => BuildResult.err "x") ∧
    (⟨[(⟨"a", BuildSystem.LFC⟩, BuildResult.ok),
        (⟨"b", BuildSystem.CMake⟩, BuildResult.err "e")]⟩ : BatchBuildResults).par_map
        (fun _ => BuildResult.err "x") =
      (⟨[(⟨"a", BuildSystem.LFC⟩, BuildResult.ok),
          (⟨"b", BuildSystem.CMake⟩, BuildResult.err "e")]⟩ : BatchBuildResults).map
        (fun r => r) (fun _ => BuildResult.err "x") :=
  par_map_outcome_equiv_map
    ⟨[(⟨"a", BuildSystem.LFC⟩, BuildResult.ok),
      (⟨"b", BuildSystem.CMake⟩, BuildResult.err "e")]⟩
    (fun _ => BuildResult.err "x") [1, 0] (by decide)

/-- Pre-seeding a ledger for an app set records exactly those apps, in order. -/
theorem resultApps_for_apps (apps : List App) :
    resultApps (BatchBuildResults.for_apps apps) = apps := by
  unfold resultApps BatchBuildResults.for_apps
  simp only [List.map_map]
  exact List.map_id apps

/-- Merging ledgers merges their app lists, up to the re-sort permutation. -/
theorem resultApps_append_perm (s o : BatchBuildResults) :
    (resultApps (s.append o)).Perm (resultApps s ++ resultApps o) := by
  unfold resultApps BatchBuildResults.append
  have h2 := (List.mergeSort_perm (s.results ++ o.results) nameLe).map Prod.fst
  rwa [List.map_append] at h2

/-- A merged ledger is sorted by app name. -/
theorem append_results_sorted (s o : BatchBuildResults) :
    (s.append o).results.Pairwise (fun p q => nameLe p q = true) :=
  List.sorted_mergeSort nameLe_trans nameLe_total _

/-- The dispatch loop over a Cargo-free kind list, with backends that return a
ledger scoped to exactly the apps they are given, succeeds with a sorted ledger
whose apps are those of the accumulator plus every visited kind's partition. -/
theorem dispatch_loop_spec (lfcExec cmakeExec : BatchLingoCommand → BatchBuildResults)
    (cmd : BatchLingoCommand)
    (hl : ∀ sub, resultApps (lfcExec sub) = sub.apps)
    (hc : ∀ sub, resultApps (cmakeExec sub) = sub.apps) :
    ∀ (kl : List BuildSystem), BuildSystem.Cargo ∉ kl →
      ∀ acc, acc.results.Pairwise (fun p q => nameLe p q = true) →
        ∃ r, dispatch_loop lfcExec cmakeExec cmd acc kl = some r ∧
          (resultApps r).Perm
            (resultApps acc ++ kl.flatMap (fun bs => partitionOf cmd.apps bs)) ∧
          r.results.Pairwise (fun p q => nameLe p q = true) := by
  intro kl
  induction kl with
  | nil =>
    intro _ acc hacc
    refine ⟨acc, rfl, ?_, hacc⟩
    rw [List.flatMap_nil, List.append_nil]
  | cons bs rest ih =>
    intro hk acc hacc
    have hnr : BuildSystem.Cargo ∉ rest := fun hr => hk (List.mem_cons_of_mem _ hr)
    cases bs with
    | LFC =>
      obtain ⟨r, hr, hperm, hsort⟩ :=
        ih hnr (acc.append (lfcExec (cmd.with_apps (partitionOf cmd.apps BuildSystem.LFC))))
          (append_results_sorted _ _)
      refine ⟨r, hr, ?_, hsort⟩
      have h1 : (resultApps (acc.append
          (lfcExec (cmd.with_apps (partitionOf cmd.apps BuildSystem.LFC))))).Perm
          (resultApps acc ++ partitionOf cmd.apps BuildSystem.LFC) := by
        have h2 := resultApps_append_perm acc
          (lfcExec (cmd.with_apps (partitionOf cmd.apps BuildSystem.LFC)))
        rwa [hl (cmd.with_apps (partitionOf cmd.apps BuildSystem.LFC))] at h2
      refine hperm.trans ((h1.append_right _).trans ?_)
      rw [List.append_assoc, List.flatMap_cons]
    | CMake =>
      obtain ⟨r, hr, hperm, hsort⟩ :=
        ih hnr (acc.append (cmakeExec (cmd.with_apps (partitionOf cmd.apps BuildSystem.CMake))))
          (append_results_sorted _ _)
      refine ⟨r, hr, ?_, hsort⟩
      have h1 : (resultApps (acc.append
          (cmakeExec (cmd.with_apps (partitionOf cmd.apps BuildSystem.CMake))))).Perm
          (resultApps acc ++ partitionOf cmd.apps BuildSystem.CMake) := by
        have h2 := resultApps_append_perm acc
          (cmakeExec (cmd.with_apps (partitionOf cmd.apps BuildSystem.CMake)))
        rwa [hc (cmd.with_apps (partitionOf cmd.apps BuildSystem.CMake))] at h2
      refine hperm.trans ((h1.append_right _).trans ?_)
      rw [List.append_assoc, List.flatMap_cons]
    | Cargo => exact absurd (List.mem_cons_self _ _) hk

/-- Dropping the kinds with an empty partition from a kind list does not change
the union of the partitions. -/
theorem flatMap_filter_present (apps : List App) :
    ∀ (kl : List BuildSystem),
      (kl.filter (fun bs => apps.any (fun a => a.build_system == bs))).flatMap
        (fun bs => partitionOf apps bs) =
      kl.flatMap (fun bs => partitionOf apps bs) := by
  intro kl
  induction kl with
  | nil => rfl
  | cons bs rest ih =>
    rw [List.filter_cons]
    by_cases hp : apps.any (fun a => a.build_system == bs) = true
    · rw [if_pos hp, List.flatMap_cons, List.flatMap_cons, ih]
    · rw [if_neg hp, ih, List.flatMap_cons]
      have hempty : partitionOf apps bs = [] := by
        unfold partitionOf
        rw [List.filter_eq_nil_iff]
        intro a ha hcon
        apply hp
        rw [List.any_eq_true]
        exact ⟨a, ha, hcon⟩
      rw [hempty, List.nil_append]

/-- With no Cargo app, the three kind partitions together are exactly the input
app list, up to order. -/
theorem flatMap_all_kinds_perm (apps : List App)
    (hnc : ∀ a ∈ apps, a.build_system ≠ BuildSystem.Cargo) :
    (all_kinds.flatMap (fun bs => partitionOf apps bs)).Perm apps := by
  unfold all_kinds
  rw [List.flatMap_cons, List.flatMap_cons, List.flatMap_cons, List.flatMap_nil,
    List.append_nil]
  have hcargo : partitionOf apps BuildSystem.Cargo = [] := by
    unfold partitionOf
    rw [List.filter_eq_nil_iff]
    intro a ha hcon
    exact hnc a ha (by simpa using hcon)
  rw [hcargo, List.append_nil]
  have hcm : partitionOf apps BuildSystem.CMake =
      apps.filter (fun a => !(a.build_system == BuildSystem.LFC)) := by
    unfold partitionOf
    apply List.filter_congr
    intro a ha
    cases hbs : a.build_system with
    | LFC => rfl
    | CMake => rfl
    | Cargo => exact absurd hbs (hnc a ha)
  rw [hcm]
  exact List.filter_append_perm _ apps

/-- C8: for a batch whose applications all have implemented kinds (no Cargo app),
and backends honouring the contract that the returned ledger is scoped to exactly
the apps they are handed, execute_command partitions the app list so that each
app lies in exactly the partition of its own kind, every kind present has a
non-empty partition, each partition is dispatched with the original CommandSpec
re-scoped to it, and the merged ledger holds exactly one entry per input
application, sorted by name. -/
theorem dispatch_partitions_and_merges
    (lfcExec cmakeExec : BatchLingoCommand → BatchBuildResults)
    (cmd : BatchLingoCommand)
    (hl : ∀ sub, resultApps (lfcExec sub) = sub.apps)
    (hc : ∀ sub, resultApps (cmakeExec sub) = sub.apps)
    (hnc : ∀ a ∈ cmd.apps, a.build_system ≠ BuildSystem.Cargo) :
    (∀ a ∈ cmd.apps, ∀ bs, a ∈ partitionOf cmd.apps bs ↔ bs = a.build_system) ∧
    (∀ bs ∈ kindsPresent cmd.apps, partitionOf cmd.apps bs ≠ []) ∧
    (∀ apps2, (cmd.with_apps apps2).task = cmd.task) ∧
    ∃ r, execute_command lfcExec cmakeExec cmd = some r ∧
      (resultApps r).Perm cmd.apps ∧
      r.results.Pairwise (fun p q => nameLe p q = true) := by
  refine ⟨?_, ?_, fun _ => rfl, ?_⟩
  · intro a ha bs
    unfold partitionOf
    rw [List.mem_filter]
    constructor
    · rintro ⟨-, hb⟩
      exact (beq_iff_eq.mp hb).symm
    · rintro rfl
      exact ⟨ha, by simp⟩
  · intro bs hbs
    unfold kindsPresent at hbs
    rw [List.mem_filter] at hbs
    obtain ⟨-, hany⟩ := hbs
    rw [List.any_eq_true] at hany
    obtain ⟨a, ha, hab⟩ := hany
    intro hnil
    unfold partitionOf at hnil
    rw [List.filter_eq_nil_iff] at hnil
    exact hnil a ha hab
  · have hKP : BuildSystem.Cargo ∉ kindsPresent cmd.apps := by
      unfold kindsPresent
      rw [List.mem_filter]
      rintro ⟨-, hany⟩
      rw [List.any_eq_true] at hany
      obtain ⟨a, ha, hab⟩ := hany
      exact hnc a ha (beq_iff_eq.mp hab)
    obtain ⟨r, hr, hperm, hsort⟩ := dispatch_loop_spec lfcExec cmakeExec cmd hl hc
      (kindsPresent cmd.apps) hKP BatchBuildResults.new List.Pairwise.nil
    refine ⟨r, hr, ?_, hsort⟩
    apply hperm.trans
    rw [show resultApps BatchBuildResults.new = [] from rfl, List.nil_append]
    unfold kindsPresent
    rw [flatMap_filter_present cmd.apps all_kinds]
    exact flatMap_all_kinds_perm cmd.apps hnc

/-- Witness for C8 on the mixed three-app set of the spec's example, with
backends that pre-seed a success ledger for exactly the apps they receive. -/
theorem dispatch_partitions_and_merges_witness :
    (∀ a ∈ ([⟨"a", BuildSystem.LFC⟩, ⟨"b", BuildSystem.CMake⟩,
        ⟨"c", BuildSystem.LFC⟩] : List App), ∀ bs,
      a ∈ partitionOf [⟨"a", BuildSystem.LFC⟩, ⟨"b", BuildSystem.CMake⟩,
        ⟨"c", BuildSystem.LFC⟩] bs ↔ bs = a.build_system) ∧
    (∀ bs ∈ kindsPresent [⟨"a", BuildSystem.LFC⟩, ⟨"b", BuildSystem.CMake⟩,
        ⟨"c", BuildSystem.LFC⟩],
      partitionOf [⟨"a", BuildSystem.LFC⟩, ⟨"b", BuildSystem.CMake⟩,
        ⟨"c", BuildSystem.LFC⟩] bs ≠ []) ∧
    (∀ apps2,
      ((⟨[⟨"a", BuildSystem.LFC⟩, ⟨"b", BuildSystem.CMake⟩, ⟨"c", BuildSystem.LFC⟩],
          CommandSpec.Clean⟩ : BatchLingoCommand).with_apps apps2).task =
        (⟨[⟨"a", BuildSystem.LFC⟩, ⟨"b", BuildSystem.CMake⟩, ⟨"c", BuildSystem.LFC⟩],
          CommandSpec.Clean⟩ : BatchLingoCommand).task) ∧
    ∃ r, execute_command (fun c => BatchBuildResults.for_apps c.apps)
        (fun c => BatchBuildResults.for_apps c.apps)
        ⟨[⟨"a", BuildSystem.LFC⟩, ⟨"b", BuildSystem.CMake⟩, ⟨"c", BuildSystem.LFC⟩],
          CommandSpec.Clean⟩ = some r ∧
      (resultApps r).Perm [⟨"a", BuildSystem.LFC⟩, ⟨"b", BuildSystem.CMake⟩,
        ⟨"c", BuildSystem.LFC⟩] ∧
      r.results.Pairwise (fun p q => nameLe p q = true) :=
  dispatch_partitions_and_merges (fun c => BatchBuildResults.for_apps c.apps)
    (fun c => BatchBuildResults.for_apps c.apps)
    ⟨[⟨"a", BuildSystem.LFC⟩, ⟨"b", BuildSystem.CMake⟩, ⟨"c", BuildSystem.LFC⟩],
      CommandSpec.Clean⟩
    (fun sub => resultApps_for_apps sub.apps)
    (fun sub => resultApps_for_apps sub.apps)
    (by decide)

end Weaver
